import Mathlib

/-!
Verification of the safari-model detection service.

This file gives a shallow embedding, in Lean 4, of the core logic of the
repository's detection service:

* `DetSvc` — the request orchestration layer of
  `src/backend/detection-service/src/services/detection_service.py`:
  the `cached` and `rate_limited` decorators (backed by a Redis-style
  key/value store with per-entry TTL), the circuit-breaker gate, and the
  `detect_species` pipeline, together with the `batch_process` entry point
  of that module.
* `LNN` — the liquid-neural-network state engine of
  `src/backend/detection-service/src/models/lnn_model.py`:
  `_update_membrane_potential`, `_get_adaptive_time_constant` and
  `update_states`, both over ideal reals and over a float model with an
  explicit non-finite (NaN/Inf) element.
* `ModelSvc` — the batch scheduler of
  `src/backend/detection-service/src/services/model_service.py`:
  `batch_process` with sub-batch partitioning, concurrent dispatch with an
  explicit completion order, and the success-rate metric.

Machine floats are modelled as follows: quantities whose claims concern the
ideal arithmetic (decay formula) use `ℝ` with the exponential passed as a
function argument so that definitions stay computable; quantities whose
claims concern NaN propagation use `Option ℚ`, `none` standing for a
non-finite value, with arithmetic propagating `none` exactly as IEEE
arithmetic propagates NaN.  Timestamps are natural numbers (seconds).
-/

namespace DetSvc

/-- A detection result as returned by `detect_species`: the fields of the
result dict that the caching / thresholding logic inspects. -/
structure DetResult where
  species : String
  confidence : ℚ
deriving DecidableEq, Repr, Inhabited

/-- A value stored in the Redis cache: either an integer counter
(`INCR`-able, used by the rate limiter) or a serialized detection result. -/
inductive RVal where
  | num (n : ℕ)
  | res (r : DetResult)
deriving DecidableEq, Repr

/-- One Redis entry: key, value and an optional absolute expiry time. -/
structure RedisEntry where
  key : String
  val : RVal
  expiry : Option ℕ
deriving DecidableEq, Repr

/-- Whether an entry is still alive at time `now` (TTL not yet elapsed). -/
def RedisEntry.live (e : RedisEntry) (now : ℕ) : Bool :=
  match e.expiry with
  | none => true
  | some t => now < t

/-- The Redis store backing `self.cache_client`. -/
structure Redis where
  store : List RedisEntry
deriving DecidableEq, Repr

/-- Structural lookup of a key, ignoring expiry. -/
def Redis.lookup (r : Redis) (k : String) : Option RedisEntry :=
  r.store.find? (fun e => e.key == k)

/-- `GET key`: returns the value if the key exists and its TTL has not
elapsed. -/
def Redis.get (r : Redis) (now : ℕ) (k : String) : Option RVal :=
  match r.lookup k with
  | some e => if e.live now then some e.val else none
  | none => none

/-- Write a key with the given value and expiry, replacing any existing
entry for the same key. -/
def Redis.setRaw (r : Redis) (k : String) (v : RVal) (ex : Option ℕ) : Redis :=
  ⟨⟨k, v, ex⟩ :: r.store.filter (fun e => !(e.key == k))⟩

/-- `SETEX key ttl value`: store with a TTL of `ttl` seconds from `now`. -/
def Redis.setex (r : Redis) (now : ℕ) (k : String) (ttl : ℕ) (v : RVal) : Redis :=
  r.setRaw k v (some (now + ttl))

/-- `INCR key`: increment the counter under `key`, treating a missing or
expired key as 0; a fresh counter starts with no TTL.  The TTL of a live
counter is preserved, as in Redis.  (The detection service only ever
increments its dedicated `rate_limit:` keys, which hold counters.) -/
def Redis.incr (r : Redis) (now : ℕ) (k : String) : ℕ × Redis :=
  match r.lookup k with
  | some e =>
    if e.live now then
      match e.val with
      | .num n => (n + 1, r.setRaw k (.num (n + 1)) e.expiry)
      | .res _ => (1, r.setRaw k (.num 1) e.expiry)
    else (1, r.setRaw k (.num 1) none)
  | none => (1, r.setRaw k (.num 1) none)

/-- `EXPIRE key secs`: set the expiry of an existing key to `now + secs`. -/
def Redis.expire (r : Redis) (now : ℕ) (k : String) (secs : ℕ) : Redis :=
  ⟨r.store.map (fun e => if e.key == k then ⟨e.key, e.val, some (now + secs)⟩ else e)⟩

/-- Circuit-breaker mode, per the spec state machine CLOSED / OPEN / HALF_OPEN. -/
inductive CBMode where
  | closed
  | isOpen
  | halfOpen
deriving DecidableEq, Repr

/-- Modelled from the spec: the `CircuitBreaker` class constructed by
`DetectionService._initialize_circuit_breaker` (with `failure_threshold` and
`recovery_timeout`) is referenced but not defined anywhere under the
repository sources; its state machine follows spec sections 4.4 and 8:
mode CLOSED / OPEN / HALF_OPEN, a consecutive-failure counter and a
last-failure timestamp. -/
structure CircuitBreaker where
  mode : CBMode
  failures : ℕ
  lastFailure : ℕ
  failureThreshold : ℚ
  recoveryTimeout : ℕ
deriving DecidableEq, Repr

/-- Modelled from the spec: `is_available` — CLOSED and HALF_OPEN allow the
call; OPEN rejects until `recovery_timeout` has elapsed since the last
failure, at which point the breaker probes (HALF_OPEN) and allows it. -/
def CircuitBreaker.is_available (cb : CircuitBreaker) (now : ℕ) :
    Bool × CircuitBreaker :=
  match cb.mode with
  | .closed => (true, cb)
  | .halfOpen => (true, cb)
  | .isOpen =>
    if cb.lastFailure + cb.recoveryTimeout ≤ now then
      (true, { cb with mode := .halfOpen })
    else (false, cb)

/-- Modelled from the spec: `record_failure` — bump the consecutive-failure
counter and note the time; reaching the threshold (or failing the HALF_OPEN
probe) opens the circuit. -/
def CircuitBreaker.record_failure (cb : CircuitBreaker) (now : ℕ) :
    CircuitBreaker :=
  { cb with
    failures := cb.failures + 1
    lastFailure := now
    mode :=
      if cb.mode = .halfOpen ∨ cb.failureThreshold ≤ ((cb.failures + 1 : ℕ) : ℚ)
      then .isOpen else cb.mode }

/-- Modelled from the spec: `record_success` — success in any state resets
the consecutive-failure counter and closes the circuit. -/
def CircuitBreaker.record_success (cb : CircuitBreaker) : CircuitBreaker :=
  { cb with failures := 0, mode := .closed }

/-- Module constants of `detection_service.py`. -/
def DEFAULT_CONFIDENCE_THRESHOLD : ℚ := 85 / 100

def CACHE_TTL : ℕ := 3600

def RATE_LIMIT : ℕ := 1000

def MAX_BATCH_SIZE : ℕ := 128

/-- The observable checks a `detect_species` call performs, in execution
order: the `cached` decorator lookup, the `rate_limited` decorator check,
the circuit-breaker availability check, the in-body fingerprint cache
lookup, and the classifier invocation. -/
inductive Ev where
  | decoGet
  | rateCheck
  | cbCheck
  | fpGet
  | classify
deriving DecidableEq, Repr

/-- Outcome of a `detect_species` call: a result dict, an HTTP 429
(`Rate limit exceeded`), an HTTP 503 (`Service temporarily unavailable`),
or a propagated model exception. -/
inductive Outcome where
  | ok (r : DetResult)
  | rateLimited
  | unavailable
  | failed (e : String)
deriving DecidableEq, Repr

/-- The `rate_limited` decorator body: `INCR` the per-operation key, start
the 60-second window on the first call of a window, and reject when the
counter exceeds the limit.  Returns `true` when the call may proceed. -/
def rate_limited_check (limit window : ℕ) (k : String) (r : Redis) (now : ℕ) :
    Bool × Redis :=
  let c := r.incr now k
  let r2 := if c.1 = 1 then c.2.expire now k window else c.2
  (decide (c.1 ≤ limit), r2)

/-- Mutable service state threaded through a `detect_species` call: the
Redis cache client and the circuit breaker. -/
structure SvcState where
  redis : Redis
  breaker : CircuitBreaker
deriving DecidableEq, Repr

/-- The cache key of the `cached` decorator for `detect_species`:
`f"{func.__name__}:{hash(str(args))}"`. -/
def decoKey (hashArgs : String) : String := "detect_species:" ++ hashArgs

/-- The rate-limiter key for `detect_species`: `f"rate_limit:{func.__name__}"`. -/
def rateKey : String := "rate_limit:detect_species"

/-- The in-body fingerprint cache key:
`f"species:{hash(processed_image.tobytes())}"`. -/
def fpKey (fingerprint : String) : String := "species:" ++ fingerprint

/-- The full `detect_species` call of `DetectionService`, with its decorator
stack `@monitored @cached @rate_limited` applied in Python order (outermost
`monitored`, then `cached`, then `rate_limited`, then the function body).

Parameters abstract the external collaborators: `hashArgs` is
`hash(str(args))` for the input, `fingerprint` is
`hash(preprocess_image(image).tobytes())`, and `classify` is
`SpeciesClassifier.predict_species` on the preprocessed image, returning a
species name and confidence or raising.  Returns the outcome, the final
service state, and the trace of checks performed in order. -/
def detect_species (hashArgs fingerprint : String)
    (classify : Except String (String × ℚ)) (s : SvcState) (now : ℕ) :
    Outcome × SvcState × List Ev :=
  -- `cached` decorator: check the cache, on a hit return without running
  -- the rate limiter or the function body.
  match s.redis.get now (decoKey hashArgs) with
  | some (.res r) => (.ok r, s, [.decoGet])
  | _ =>
    -- `rate_limited` decorator.
    let rl := rate_limited_check RATE_LIMIT 60 rateKey s.redis now
    if rl.1 = false then (.rateLimited, ⟨rl.2, s.breaker⟩, [.decoGet, .rateCheck])
    else
      -- function body: circuit-breaker availability check.
      let av := s.breaker.is_available now
      if av.1 = false then
        (.unavailable, ⟨rl.2, av.2⟩, [.decoGet, .rateCheck, .cbCheck])
      else
        -- in-body fingerprint cache lookup.
        match rl.2.get now (fpKey fingerprint) with
        | some (.res r) =>
          -- fingerprint hit: return the cached result; the `cached`
          -- decorator then stores it under its own key.
          (.ok r, ⟨rl.2.setex now (decoKey hashArgs) CACHE_TTL (.res r), av.2⟩,
            [.decoGet, .rateCheck, .cbCheck, .fpGet])
        | _ =>
          match classify with
          | .error e =>
            -- `record_failure`, then the exception propagates; nothing is
            -- cached on the way out.
            (.failed e, ⟨rl.2, av.2.record_failure now⟩,
              [.decoGet, .rateCheck, .cbCheck, .fpGet, .classify])
          | .ok (name, conf) =>
            let res : DetResult := ⟨name, conf⟩
            -- conditional fingerprint-cache write (threshold policy).
            let r3 := if DEFAULT_CONFIDENCE_THRESHOLD ≤ conf then
                rl.2.setex now (fpKey fingerprint) CACHE_TTL (.res res)
              else rl.2
            -- `record_success`, then the `cached` decorator stores the
            -- result unconditionally under its own key.
            (.ok res,
              ⟨r3.setex now (decoKey hashArgs) CACHE_TTL (.res res),
                av.2.record_success⟩,
              [.decoGet, .rateCheck, .cbCheck, .fpGet, .classify])

/-- `DetectionService.batch_process`: hard cap at `MAX_BATCH_SIZE`, then
dispatch the whole list to the species batch predictor or the sequential
fossil helper.  `predictS` abstracts `SpeciesClassifier.batch_predict`
(species name and confidence per image) and `detectF` abstracts
`detect_fossil` per scan. -/
def batch_process {α : Type} (predictS : List α → List (String × ℚ))
    (detectF : α → DetResult) (images : List α) (process_type : String) :
    Except String (List DetResult) :=
  if MAX_BATCH_SIZE < images.length then
    .error "Batch size exceeds maximum"
  else if process_type = "species" then
    .ok ((predictS images).map (fun p => ⟨p.1, p.2⟩))
  else if process_type = "fossil" then
    .ok (images.map detectF)
  else .error "Invalid process type"

/-- Run a sequence of `rate_limited` checks at the given call times,
threading the Redis state, and collect whether each call was allowed. -/
def simulate_rate_calls (limit window : ℕ) (k : String) (r : Redis) :
    List ℕ → List Bool × Redis
  | [] => ([], r)
  | t :: ts =>
    let c := rate_limited_check limit window k r t
    let rest := simulate_rate_calls limit window k c.2 ts
    (c.1 :: rest.1, rest.2)

/-- Whether a cache read produced a stored detection result. -/
def isResHit : Option RVal → Bool
  | some (.res _) => true
  | _ => false

end DetSvc

namespace LNN

/-- `LiquidNeuralNetwork._update_membrane_potential` over ideal reals:
`decay = exp(-dt / tau)` and, componentwise,
`potential * decay + current * (1 - decay)`.  The exponential is passed as
a function argument (`expf`, instantiated with `Real.exp` in the theorems)
so that the definition stays computable. -/
def update_membrane_potential {K : Type} [Field K] (expf : K → K)
    (potential current : List K) (dt tau : K) : List K :=
  let decay := expf (-dt / tau)
  List.zipWith (fun p c => p * decay + c * (1 - decay)) potential current

/-- A machine float for NaN-propagation reasoning: `some q` is a finite
value, `none` is a non-finite value (NaN or Inf). -/
abbrev FP := Option ℚ

/-- Float addition: any non-finite operand poisons the result, as IEEE
addition propagates NaN. -/
def fadd : FP → FP → FP
  | some a, some b => some (a + b)
  | _, _ => none

/-- Float multiplication: `NaN * x = NaN` for every `x`, including `0`. -/
def fmul : FP → FP → FP
  | some a, some b => some (a * b)
  | _, _ => none

/-- Float subtraction. -/
def fsub : FP → FP → FP
  | some a, some b => some (a - b)
  | _, _ => none

/-- Float negation. -/
def fneg : FP → FP := Option.map (fun a => -a)

/-- Float absolute value. -/
def fabs : FP → FP := Option.map (fun a => |a|)

/-- Float division; a zero divisor yields a non-finite value. -/
def fdiv : FP → FP → FP
  | some a, some b => if b = 0 then none else some (a / b)
  | _, _ => none

/-- Lift a scalar function (`exp`, `sigmoid`) to floats. -/
def fapp (f : ℚ → ℚ) : FP → FP := Option.map f

/-- Sum of a list of floats. -/
def fsum (l : List FP) : FP := l.foldr fadd (some 0)

/-- Whether a float is finite (not NaN/Inf). -/
def isFinite : FP → Bool
  | some _ => true
  | none => false

/-- The `LNNState` dataclass of `lnn_model.py`. -/
structure LNNState where
  membrane_potential : List FP
  synaptic_current : List FP
  time_step : ℕ
  last_update : ℚ
deriving DecidableEq, Repr

/-- `_create_initial_state`: zero vectors of the configured layer size. -/
def create_initial_state (layer_size : ℕ) : LNNState :=
  ⟨List.replicate layer_size (some 0), List.replicate layer_size (some 0), 0, 0⟩

/-- `_calculate_time_step`: `min(current_time - last_update, tau_max)`. -/
def calculate_time_step (last_update now tau_max : ℚ) : ℚ :=
  min (now - last_update) tau_max

/-- `_get_adaptive_time_constant`:
`activity = mean(abs(membrane_potential))`;
`tau = tau_min + (tau_max - tau_min) * sigmoid(activity)`; the sigmoid is
passed as a function argument. -/
def get_adaptive_time_constant (sigf : ℚ → ℚ) (mp : List FP)
    (tau_min tau_max : ℚ) : FP :=
  let activity := fdiv (fsum (mp.map fabs)) (some (mp.length : ℚ))
  fadd (some tau_min) (fmul (some (tau_max - tau_min)) (fapp sigf activity))

/-- One `torch.nn.Linear` layer of the liquid stack. -/
structure Layer where
  weight : List (List ℚ)
  bias : List ℚ

/-- Apply a linear layer to a float vector: each output component is the
dot product of a weight row with the input plus a bias; any non-finite
input component poisons every dot product it contributes to. -/
def linear_apply (w : List (List ℚ)) (b : List ℚ) (x : List FP) : List FP :=
  List.zipWith
    (fun row bias =>
      fadd (fsum (List.zipWith (fun wij xj => fmul (some wij) xj) row x)) (some bias))
    w b

/-- `_update_membrane_potential` over floats:
`decay = exp(-dt / tau)`; componentwise
`potential * decay + current * (1 - decay)`, with NaN propagation. -/
def update_membrane_potential_fp (expf : ℚ → ℚ) (potential current : List FP)
    (dt tau : FP) : List FP :=
  let decay := fapp expf (fdiv (fneg dt) tau)
  List.zipWith (fun p c => fadd (fmul p decay) (fmul c (fsub (some 1) decay)))
    potential current

/-- Look up a layer state in the `state_buffer` dict. -/
def bufLookup (buf : List (ℕ × LNNState)) (i : ℕ) : Option LNNState :=
  (buf.find? (fun p => p.1 == i)).map (fun p => p.2)

/-- Store a layer state in the `state_buffer` dict. -/
def bufStore (buf : List (ℕ × LNNState)) (i : ℕ) (st : LNNState) :
    List (ℕ × LNNState) :=
  (i, st) :: buf.filter (fun p => !(p.1 == i))

/-- The body of `update_states` for one layer `idx`: fetch (or create) the
layer state, compute `dt` and the adaptive `tau`, compute the new synaptic
current by the linear layer, update the membrane potential, and store the
state back.  Note the source neither validates the result for NaN/Inf nor
updates `time_step` / `last_update`. -/
def update_one (expf sigf : ℚ → ℚ) (layer_size : ℕ) (tau_min tau_max : ℚ)
    (now : ℚ) (input : List FP) (buf : List (ℕ × LNNState))
    (idx : ℕ) (layer : Layer) : List (ℕ × LNNState) :=
  let st := (bufLookup buf idx).getD (create_initial_state layer_size)
  let dt := calculate_time_step st.last_update now tau_max
  let tau := get_adaptive_time_constant sigf st.membrane_potential tau_min tau_max
  let sc := linear_apply layer.weight layer.bias input
  let mp := update_membrane_potential_fp expf st.membrane_potential sc (some dt) tau
  bufStore buf idx ⟨mp, sc, st.time_step, st.last_update⟩

/-- `update_states`: iterate `update_one` over the enumerated liquid
layers, mutating the state buffer. -/
def update_states (expf sigf : ℚ → ℚ) (layers : List Layer) (layer_size : ℕ)
    (tau_min tau_max : ℚ) (buf : List (ℕ × LNNState)) (now : ℚ)
    (input : List FP) : List (ℕ × LNNState) :=
  layers.enum.foldl
    (fun b p => update_one expf sigf layer_size tau_min tau_max now input b p.1 p.2)
    buf

end LNN

namespace ModelSvc

/-- The ways `ModelService.batch_process` can fail: the hard batch cap, an
invalid detection type, a sub-task that never completes, the
division-by-zero in the success-rate metric, and a propagated per-item
exception. -/
inductive BPErr (E : Type) where
  | tooLarge
  | invalidType
  | pending
  | zeroDiv
  | item (e : E)
deriving DecidableEq

/-- `DEFAULT_BATCH_SIZE` of `model_service.py`. -/
def DEFAULT_BATCH_SIZE : ℕ := 32

/-- `DEFAULT_CONFIDENCE_THRESHOLD` of `model_service.py`. -/
def DEFAULT_CONFIDENCE_THRESHOLD : ℚ := 85 / 100

def chunksAux {α : Type} : ℕ → ℕ → List α → List (List α)
  | 0, _, _ => []
  | _ + 1, _, [] => []
  | fuel + 1, bs, x :: xs =>
    (x :: xs).take bs :: chunksAux fuel bs ((x :: xs).drop bs)

/-- The sub-batch partition
`[inputs[i:i + batch_size] for i in range(0, len(inputs), batch_size)]`. -/
def chunks {α : Type} (bs : ℕ) (l : List α) : List (List α) :=
  chunksAux l.length bs l

/-- Whether task `i` of the sub-batch fails when executed. -/
def taskError {α E R : Type} (f : α → Except E R) (b : List α) (i : ℕ) :
    Option E :=
  match b.get? i with
  | some a =>
    match f a with
    | .error e => some e
    | .ok _ => none
  | none => none

/-- Whether a completion order schedules every task of the sub-batch, i.e.
every index of `b` eventually completes. -/
def covers {α : Type} (b : List α) (ord : List ℕ) : Bool :=
  (List.range b.length).all (fun i => ord.contains i)

/-- Whether a list of completion orders covers every sub-batch at its
position (missing entries default to in-order completion). -/
def coversAll {α : Type} : List (List α) → List (List ℕ) → Bool
  | [], _ => true
  | b :: rest, scheds =>
    covers b (scheds.headD (List.range b.length)) && coversAll rest scheds.tail

/-- Collect the success values of the per-item calls, in argument order;
`none` if any call fails. -/
def collectOks {α E R : Type} (f : α → Except E R) : List α → Option (List R)
  | [] => some []
  | a :: t =>
    match (f a).toOption with
    | none => none
    | some r =>
      match collectOks f t with
      | none => none
      | some rs => some (r :: rs)

/-- `asyncio.gather` over the per-item coroutines of one sub-batch, with an
explicit completion order `ord` (the order in which the concurrently
dispatched tasks finish).  The first failure in completion order
propagates; otherwise, once every task has completed, the results are
delivered in argument order — gather's reassembly contract. -/
def gatherSched {α E R : Type} (f : α → Except E R) (b : List α)
    (ord : List ℕ) : Except (BPErr E) (List R) :=
  match ord.findSome? (taskError f b) with
  | some e => .error (.item e)
  | none =>
    if covers b ord then
      match collectOks f b with
      | some rs => .ok rs
      | none => .error .pending
    else .error .pending

/-- The sub-batch loop of `ModelService.batch_process`: per sub-batch,
check the detection type, gather the concurrently dispatched per-item
calls, and `extend` the result list in order. -/
def process_batches {α E : Type} (f : α → Except E DetSvc.DetResult)
    (detection_type : String) :
    List (List α) → List (List ℕ) → Except (BPErr E) (List DetSvc.DetResult)
  | [], _ => .ok []
  | b :: rest, scheds =>
    if detection_type = "species" ∨ detection_type = "fossil" then
      match gatherSched f b (scheds.headD (List.range b.length)) with
      | .error e => .error e
      | .ok rs =>
        match process_batches f detection_type rest scheds.tail with
        | .error e => .error e
        | .ok more => .ok (rs ++ more)
    else .error .invalidType

/-- `ModelService.batch_process`: reject batches over the cap, partition
into sub-batches of `batch_size`, process them, then compute the batch
success-rate metric
`len([r for r in results if r.confidence >= threshold]) / len(inputs)` —
which divides by zero for an empty input list.  `f` abstracts the per-item
`detect_species` / `process_fossil` call, and `scheds` gives each
sub-batch's completion order. -/
def batch_process {α E : Type} (batch_size max_batch : ℕ)
    (confidence_threshold : ℚ) (f : α → Except E DetSvc.DetResult)
    (detection_type : String) (scheds : List (List ℕ)) (inputs : List α) :
    Except (BPErr E) (List DetSvc.DetResult × ℚ) :=
  if max_batch < inputs.length then .error .tooLarge
  else
    match process_batches f detection_type (chunks batch_size inputs) scheds with
    | .error e => .error e
    | .ok results =>
      if inputs.length = 0 then .error .zeroDiv
      else
        .ok (results,
          ((results.countP (fun r => confidence_threshold ≤ r.confidence) : ℕ) : ℚ)
            / (inputs.length : ℚ))

/-- The per-item results a fully successful run delivers, in input order. -/
def extractOks {α E R : Type} (f : α → Except E R) (l : List α) : List R :=
  l.filterMap (fun x => (f x).toOption)

end ModelSvc

namespace Fix

/-- A canned cached result used in concrete runs. -/
def r0 : DetSvc.DetResult := ⟨"cached-cat", 9 / 10⟩

/-- A Redis state whose `detect_species` decorator cache holds `r0` and
whose rate-limit counter is already exhausted (2000 > 1000). -/
def redisHitExhausted : DetSvc.Redis :=
  ⟨[⟨"detect_species:h", .res r0, none⟩,
    ⟨"rate_limit:detect_species", .num 2000, none⟩]⟩

/-- A Redis state whose decorator cache holds `r0` and whose rate counter
is fresh. -/
def redisHit : DetSvc.Redis := ⟨[⟨"detect_species:h", .res r0, none⟩]⟩

/-- An empty Redis state. -/
def redisEmpty : DetSvc.Redis := ⟨[]⟩

/-- A closed circuit breaker (threshold 5, recovery timeout 30). -/
def breakerClosed : DetSvc.CircuitBreaker := ⟨.closed, 0, 0, 5, 30⟩

/-- An open circuit breaker that last failed at time 0. -/
def breakerOpen : DetSvc.CircuitBreaker := ⟨.isOpen, 5, 0, 5, 30⟩

/-- A classifier outcome below the 0.85 confidence threshold. -/
def classifyLow : Except String (String × ℚ) := .ok ("maybe-fox", 1 / 2)

/-- A batch species predictor returning a fixed high-confidence label. -/
def pS (l : List Unit) : List (String × ℚ) := l.map (fun _ => ("cat", 9 / 10))

/-- An alternative batch species predictor, used to show over-cap batches
never consult the predictor. -/
def pS' (_ : List Unit) : List (String × ℚ) := []

/-- A fossil detector stub. -/
def pF (_ : Unit) : DetSvc.DetResult := ⟨"ammonite", 1⟩

/-- An alternative fossil detector stub. -/
def pF' (_ : Unit) : DetSvc.DetResult := ⟨"trilobite", 0⟩

/-- A per-item model call that fails on input 0 and succeeds otherwise. -/
def fBoom (n : ℕ) : Except String DetSvc.DetResult :=
  if n = 0 then .error "boom" else .ok ⟨"cat", 9 / 10⟩

/-- A per-item model call that always succeeds, with a confidence that
depends on the input so ordering is observable. -/
def fIdx (n : ℕ) : Except String DetSvc.DetResult :=
  .ok ⟨"cat", (n : ℚ) / 10⟩

/-- A 1×1 identity linear layer with zero bias. -/
def layer1 : LNN.Layer := ⟨[[1]], [0]⟩

end Fix

namespace DetSvc

theorem find?_congr_pred {α : Type} (p q : α → Bool) (l : List α)
    (h : ∀ a, p a = q a) : l.find? p = l.find? q := by
  induction l with
  | nil => rfl
  | cons a t ih =>
    by_cases hp : p a
    · rw [List.find?_cons_of_pos _ hp, List.find?_cons_of_pos _ (h a ▸ hp)]
    · rw [List.find?_cons_of_neg _ hp,
        List.find?_cons_of_neg _ (by rw [← h a]; exact hp), ih]

theorem lookup_setRaw_self (r : Redis) (k : String) (v : RVal) (ex : Option ℕ) :
    (r.setRaw k v ex).lookup k = some ⟨k, v, ex⟩ := by
  simp [Redis.setRaw, Redis.lookup, List.find?]

theorem lookup_setRaw_ne (r : Redis) (k k' : String) (v : RVal) (ex : Option ℕ)
    (h : k ≠ k') : (r.setRaw k' v ex).lookup k = r.lookup k := by
  unfold Redis.setRaw Redis.lookup
  dsimp only
  have hneg : ¬((fun (e : RedisEntry) => e.key == k) ⟨k', v, ex⟩ = true) := by
    simp only [beq_iff_eq]
    exact fun hc => h hc.symm
  rw [List.find?_cons_of_neg (p := fun e => e.key == k)
    (a := (⟨k', v, ex⟩ : RedisEntry)) (r.store.filter (fun e => !(e.key == k'))) hneg]
  rw [List.find?_filter]
  exact find?_congr_pred _ _ _ (fun a => by
    by_cases ha : a.key = k
    · by_cases ha' : a.key = k'
      · exact absurd (ha.symm.trans ha') h
      · simp [ha, ha', h]
    · by_cases ha' : a.key = k' <;> simp [ha, ha', Ne.symm h])

theorem get_setRaw_ne (r : Redis) (now : ℕ) (k k' : String) (v : RVal)
    (ex : Option ℕ) (h : k ≠ k') :
    (r.setRaw k' v ex).get now k = r.get now k := by
  simp [Redis.get, lookup_setRaw_ne r k k' v ex h]

theorem get_setex_self (r : Redis) (now : ℕ) (k : String) (ttl : ℕ) (v : RVal)
    (h : 0 < ttl) : (r.setex now k ttl v).get now k = some v := by
  have : (RedisEntry.live ⟨k, v, some (now + ttl)⟩ now) = true := by
    simp [RedisEntry.live]
    omega
  simp [Redis.setex, Redis.get, lookup_setRaw_self, this]

theorem get_setex_ne (r : Redis) (now now' : ℕ) (k k' : String) (ttl : ℕ)
    (v : RVal) (h : k ≠ k') : (r.setex now' k' ttl v).get now k = r.get now k := by
  simp [Redis.setex, get_setRaw_ne r now k k' v _ h]

theorem get_incr_ne (r : Redis) (now now' : ℕ) (k k' : String) (h : k ≠ k') :
    (r.incr now' k').2.get now k = r.get now k := by
  unfold Redis.incr
  cases hl : r.lookup k' with
  | none => simp [get_setRaw_ne r now k k' _ _ h]
  | some e =>
    by_cases hlive : e.live now'
    · cases hv : e.val with
      | num n => simp [hlive, hv, get_setRaw_ne r now k k' _ _ h]
      | res q => simp [hlive, hv, get_setRaw_ne r now k k' _ _ h]
    · simp [hlive, get_setRaw_ne r now k k' _ _ h]

theorem get_expire_ne (r : Redis) (now now' : ℕ) (k k' : String) (secs : ℕ)
    (h : k ≠ k') : (r.expire now' k' secs).get now k = r.get now k := by
  unfold Redis.expire Redis.get Redis.lookup
  rw [List.find?_map]
  rw [find?_congr_pred _ (fun e => e.key == k) _ (fun e => by
    by_cases hk' : e.key = k' <;> simp [Function.comp, hk'])]
  cases hl : r.store.find? (fun e => e.key == k) with
  | none => rfl
  | some e =>
    have hek : e.key = k := by simpa using List.find?_some hl
    have hfe : (if e.key = k'
        then RedisEntry.mk e.key e.val (some (now' + secs)) else e) = e :=
      if_neg (by rw [hek]; exact h)
    simp [hfe]

end DetSvc

theorem zipWith_left_proj {K : Type} (p c : List K) (h : p.length ≤ c.length) :
    List.zipWith (fun a _ => a) p c = p := by
  induction p generalizing c with
  | nil => rfl
  | cons a t ih =>
    cases c with
    | nil => simp at h
    | cons b tc =>
      simp only [List.zipWith]
      rw [ih tc (by simpa using h)]

/-- C2: for every membrane-potential vector `p`, synaptic-current vector
`c` of the same length, elapsed time `dt ≥ 0` and time constant `tau > 0`,
`_update_membrane_potential` returns componentwise
`p * exp(-dt/tau) + c * (1 - exp(-dt/tau))` — a convex combination of the
decayed prior potential and the new input, the decay weight lying in
`(0, 1]` — and for `dt = 0` it returns `p` exactly unchanged. -/
theorem membrane_update_formula (p c : List ℝ) (dt tau : ℝ)
    (hlen : p.length = c.length) (hdt : 0 ≤ dt) (htau : 0 < tau) :
    (LNN.update_membrane_potential Real.exp p c dt tau).length = p.length
    ∧ (∀ i (hi : i < p.length) (hi' : i < c.length)
        (hri : i < (LNN.update_membrane_potential Real.exp p c dt tau).length),
        (LNN.update_membrane_potential Real.exp p c dt tau).get ⟨i, hri⟩ =
          p.get ⟨i, hi⟩ * Real.exp (-dt / tau)
            + c.get ⟨i, hi'⟩ * (1 - Real.exp (-dt / tau)))
    ∧ 0 < Real.exp (-dt / tau) ∧ Real.exp (-dt / tau) ≤ 1
    ∧ LNN.update_membrane_potential Real.exp p c 0 tau = p := by
  have hlen' : (LNN.update_membrane_potential Real.exp p c dt tau).length
      = p.length := by
    simp [LNN.update_membrane_potential, hlen]
  refine ⟨hlen', ?_, Real.exp_pos _, ?_, ?_⟩
  · intro i hi hi' hri
    simp [LNN.update_membrane_potential, List.get_eq_getElem,
      List.getElem_zipWith]
  · rw [Real.exp_le_one_iff]
    have hneg : -dt ≤ 0 := by linarith
    exact div_nonpos_of_nonpos_of_nonneg hneg htau.le
  · unfold LNN.update_membrane_potential
    have hz : -(0 : ℝ) / tau = 0 := by
      rw [neg_zero, zero_div]
    rw [hz, Real.exp_zero]
    show List.zipWith (fun a b => a * 1 + b * (1 - 1)) p c = p
    have : (fun (a b : ℝ) => a * 1 + b * (1 - 1)) = fun (a : ℝ) (_ : ℝ) => a := by
      funext a b
      ring
    rw [this]
    exact zipWith_left_proj p c (le_of_eq hlen)

/-- Witness for C2 at `p = [1, 2]`, `c = [0, 3]`, `dt = 1`, `tau = 2`. -/
theorem membrane_update_formula_witness :
    ([(1 : ℝ), 2].length = [(0 : ℝ), 3].length ∧ (0 : ℝ) ≤ 1 ∧ (0 : ℝ) < 2)
    ∧ ((LNN.update_membrane_potential Real.exp [(1 : ℝ), 2] [(0 : ℝ), 3] 1 2).length
        = [(1 : ℝ), 2].length
      ∧ (∀ i (hi : i < [(1 : ℝ), 2].length) (hi' : i < [(0 : ℝ), 3].length)
          (hri : i < (LNN.update_membrane_potential Real.exp
            [(1 : ℝ), 2] [(0 : ℝ), 3] 1 2).length),
          (LNN.update_membrane_potential Real.exp [(1 : ℝ), 2] [(0 : ℝ), 3] 1 2).get
              ⟨i, hri⟩ =
            [(1 : ℝ), 2].get ⟨i, hi⟩ * Real.exp (-1 / 2)
              + [(0 : ℝ), 3].get ⟨i, hi'⟩ * (1 - Real.exp (-1 / 2)))
      ∧ 0 < Real.exp (-1 / 2) ∧ Real.exp (-1 / 2) ≤ 1
      ∧ LNN.update_membrane_potential Real.exp [(1 : ℝ), 2] [(0 : ℝ), 3] 0 2
          = [(1 : ℝ), 2]) :=
  ⟨⟨by simp, by norm_num, by norm_num⟩,
    membrane_update_formula [(1 : ℝ), 2] [(0 : ℝ), 3] 1 2 (by simp)
      (by norm_num) (by norm_num)⟩

/-- C10: for the empty input list (and in fact any detection type),
`ModelService.batch_process` does not return a result list: it processes
zero sub-batches and then the success-rate metric divides by
`len(inputs) = 0`, so the call fails with the division-by-zero error. -/
theorem batch_process_empty_zero_division {α E : Type} (batch_size max_batch : ℕ)
    (threshold : ℚ) (f : α → Except E DetSvc.DetResult) (detection_type : String)
    (scheds : List (List ℕ)) :
    ModelSvc.batch_process batch_size max_batch threshold f detection_type scheds
      ([] : List α) = .error .zeroDiv := by
  simp [ModelSvc.batch_process, ModelSvc.chunks, ModelSvc.chunksAux,
    ModelSvc.process_batches]

/-- C7: `DetectionService.batch_process` rejects any list longer than
`MAX_BATCH_SIZE` up front with the batch-size error, touching none of the
items (the outcome does not depend on the processing functions), and any
list within the cap proceeds: it is never rejected for size, and with a
valid process type the whole list is processed in one piece (the cap is a
hard limit, not a chunking trigger). -/
theorem detection_batch_cap {α : Type}
    (predictS predictS' : List α → List (String × ℚ))
    (detectF detectF' : α → DetSvc.DetResult) (images : List α)
    (process_type : String) :
    (DetSvc.MAX_BATCH_SIZE < images.length →
      DetSvc.batch_process predictS detectF images process_type
          = .error "Batch size exceeds maximum"
        ∧ DetSvc.batch_process predictS detectF images process_type
          = DetSvc.batch_process predictS' detectF' images process_type)
    ∧ (images.length ≤ DetSvc.MAX_BATCH_SIZE →
      DetSvc.batch_process predictS detectF images process_type
          ≠ .error "Batch size exceeds maximum"
      ∧ (process_type = "species" →
        DetSvc.batch_process predictS detectF images process_type
          = .ok ((predictS images).map (fun p => ⟨p.1, p.2⟩)))
      ∧ (process_type = "fossil" →
        DetSvc.batch_process predictS detectF images process_type
          = .ok (images.map detectF))) := by
  constructor
  · intro hover
    constructor
    · simp [DetSvc.batch_process, hover]
    · simp [DetSvc.batch_process, hover]
  · intro hle
    have hnot : ¬ DetSvc.MAX_BATCH_SIZE < images.length := by omega
    refine ⟨?_, ?_, ?_⟩
    · by_cases hs : process_type = "species"
      · simp [DetSvc.batch_process, hnot, hs]
      · by_cases hf : process_type = "fossil"
        · simp [DetSvc.batch_process, hnot, hs, hf]
        · simp [DetSvc.batch_process, hnot, hs, hf]
    · intro hs
      simp [DetSvc.batch_process, hnot, hs]
    · intro hf
      by_cases hs : process_type = "species"
      · rw [hs] at hf
        simp at hf
      · simp [DetSvc.batch_process, hnot, hs, hf]

/-- Witness for C7: a batch of 129 units is rejected regardless of the
processing functions, and a batch of 32 units is processed whole. -/
theorem detection_batch_cap_witness :
    (DetSvc.batch_process Fix.pS Fix.pF (List.replicate 129 ()) "species"
        = .error "Batch size exceeds maximum"
      ∧ DetSvc.batch_process Fix.pS Fix.pF (List.replicate 129 ()) "species"
        = DetSvc.batch_process Fix.pS' Fix.pF' (List.replicate 129 ()) "species")
    ∧ DetSvc.batch_process Fix.pS Fix.pF (List.replicate 32 ()) "species"
        = .ok ((Fix.pS (List.replicate 32 ())).map (fun p => ⟨p.1, p.2⟩)) :=
  ⟨(detection_batch_cap Fix.pS Fix.pS' Fix.pF Fix.pF'
      (List.replicate 129 ()) "species").1 (by simp [DetSvc.MAX_BATCH_SIZE]),
    ((detection_batch_cap Fix.pS Fix.pS' Fix.pF Fix.pF'
      (List.replicate 32 ()) "species").2
        (by simp [DetSvc.MAX_BATCH_SIZE])).2.1 rfl⟩

namespace LNN

theorem fadd_none_right (x : FP) : fadd x none = none := by
  cases x <;> rfl

theorem fadd_none_left (x : FP) : fadd none x = none := rfl

theorem fmul_none_left (x : FP) : fmul none x = none := rfl

theorem fmul_none_right (x : FP) : fmul x none = none := by
  cases x <;> rfl

end LNN

/-- C3 (failing-input evaluation): `update_states` persists NaN into the
state buffer rather than rejecting the input.  With a single 1×1 identity
liquid layer, layer size 1, time constants (10, 100), the empty initial
buffer and the input vector `[NaN]`, the stored layer state has
`membrane_potential = [NaN]` and `synaptic_current = [NaN]` — for every
choice of the `exp` and `sigmoid` scalar functions, i.e. the NaN reaches
the buffer through the arithmetic alone; no check intervenes. -/
theorem update_states_propagates_nan (expf sigf : ℚ → ℚ) :
    LNN.bufLookup
        (LNN.update_states expf sigf [Fix.layer1] 1 10 100 [] 0 [none]) 0
      = some ⟨[none], [none], 0, 0⟩
    ∧ (List.any [(none : LNN.FP)] (fun v => !LNN.isFinite v)) = true := by
  constructor
  · simp only [LNN.update_states, List.enum, List.enumFrom, List.foldl,
      LNN.update_one, Fix.layer1]
    simp only [LNN.bufLookup, LNN.bufStore, LNN.create_initial_state,
      LNN.calculate_time_step, LNN.get_adaptive_time_constant,
      LNN.linear_apply, LNN.update_membrane_potential_fp,
      LNN.fsum, LNN.fabs, LNN.fneg, LNN.fapp, LNN.fadd_none_right,
      LNN.fadd_none_left, LNN.fmul_none_left, LNN.fmul_none_right]
    simp [LNN.fadd, LNN.fmul, LNN.fdiv, LNN.fadd_none_right,
      LNN.fmul_none_right, List.find?, List.filter]
  · rfl

namespace DetSvc

theorem filter_ne_of_find?_none (k : String) (l : List RedisEntry)
    (h : l.find? (fun e => e.key == k) = none) :
    l.filter (fun e => !(e.key == k)) = l := by
  rw [List.filter_eq_self]
  intro a ha
  have := List.find?_eq_none.mp h a ha
  simpa using this

theorem expire_map_untouched (k : String) (now secs : ℕ) (l : List RedisEntry)
    (h : l.find? (fun e => e.key == k) = none) :
    l.map (fun e => if e.key == k
      then RedisEntry.mk e.key e.val (some (now + secs)) else e) = l := by
  have hall : ∀ e ∈ l, (if (e.key == k) = true
      then RedisEntry.mk e.key e.val (some (now + secs)) else e) = id e := by
    intro e he
    have hne := List.find?_eq_none.mp h e he
    simp at hne
    simp [hne]
  rw [List.map_congr_left hall, List.map_id]


theorem find?_filter_not (k : String) (l : List RedisEntry) :
    (l.filter (fun e => !(e.key == k))).find? (fun e => e.key == k) = none := by
  rw [List.find?_filter]
  rw [List.find?_eq_none]
  intro x _
  cases hx : (x.key == k) <;> simp [hx]

theorem rate_check_first (N W t : ℕ) (k : String) (r : Redis)
    (habs : r.store.find? (fun e => e.key == k) = none) :
    rate_limited_check N W k r t
      = (decide (1 ≤ N), ⟨⟨k, .num 1, some (t + W)⟩ :: r.store⟩) := by
  have hincr : r.incr t k = (1, r.setRaw k (.num 1) none) := by
    unfold Redis.incr Redis.lookup
    rw [habs]
  have hexp : (r.setRaw k (.num 1) none).expire t k W
      = ⟨⟨k, .num 1, some (t + W)⟩ :: r.store⟩ := by
    unfold Redis.setRaw Redis.expire
    dsimp only
    rw [List.map_cons]
    have hk : ((⟨k, RVal.num 1, none⟩ : RedisEntry).key == k) = true := by simp
    rw [if_pos hk]
    rw [expire_map_untouched k t W _ (find?_filter_not k r.store)]
    rw [filter_ne_of_find?_none k r.store habs]
  unfold rate_limited_check
  rw [hincr]
  dsimp only
  rw [if_pos rfl, hexp]

theorem rate_check_step (N W t0 c t : ℕ) (k : String) (rest : List RedisEntry)
    (hrest : rest.find? (fun e => e.key == k) = none)
    (hc : 1 ≤ c) (ht : t < t0 + W) :
    rate_limited_check N W k ⟨⟨k, .num c, some (t0 + W)⟩ :: rest⟩ t
      = (decide (c + 1 ≤ N), ⟨⟨k, .num (c + 1), some (t0 + W)⟩ :: rest⟩) := by
  have hfilter : ((⟨k, .num c, some (t0 + W)⟩ : RedisEntry) :: rest).filter
      (fun e => !(e.key == k)) = rest := by
    have hk : ((⟨k, RVal.num c, some (t0 + W)⟩ : RedisEntry).key == k) = true := by simp
    rw [List.filter_cons]
    rw [hk]
    simp only [Bool.not_true, Bool.false_eq_true, if_false]
    exact filter_ne_of_find?_none k rest hrest
  have hincr : Redis.incr ⟨⟨k, .num c, some (t0 + W)⟩ :: rest⟩ t k
      = (c + 1, ⟨⟨k, .num (c + 1), some (t0 + W)⟩ :: rest⟩) := by
    unfold Redis.incr Redis.lookup
    rw [List.find?_cons_of_pos _ (by simp)]
    dsimp only
    have hlive : (RedisEntry.live ⟨k, .num c, some (t0 + W)⟩ t) = true := by
      simp only [RedisEntry.live]
      simp
      omega
    rw [hlive]
    unfold Redis.setRaw
    dsimp only
    rw [hfilter]
    simp
  unfold rate_limited_check
  rw [hincr]
  dsimp only
  rw [if_neg (by omega)]

theorem rate_check_rollover (N W t0 m t' : ℕ) (k : String) (rest : List RedisEntry)
    (hrest : rest.find? (fun e => e.key == k) = none)
    (hroll : t0 + W ≤ t') :
    rate_limited_check N W k ⟨⟨k, .num m, some (t0 + W)⟩ :: rest⟩ t'
      = (decide (1 ≤ N), ⟨⟨k, .num 1, some (t' + W)⟩ :: rest⟩) := by
  have hfilter : ((⟨k, .num m, some (t0 + W)⟩ : RedisEntry) :: rest).filter
      (fun e => !(e.key == k)) = rest := by
    have hk : ((⟨k, RVal.num m, some (t0 + W)⟩ : RedisEntry).key == k) = true := by simp
    rw [List.filter_cons]
    rw [hk]
    simp only [Bool.not_true, Bool.false_eq_true, if_false]
    exact filter_ne_of_find?_none k rest hrest
  have hincr : Redis.incr ⟨⟨k, .num m, some (t0 + W)⟩ :: rest⟩ t' k
      = (1, ⟨⟨k, .num 1, none⟩ :: rest⟩) := by
    unfold Redis.incr Redis.lookup
    rw [List.find?_cons_of_pos _ (by simp)]
    dsimp only
    have hdead : (RedisEntry.live ⟨k, .num m, some (t0 + W)⟩ t') = false := by
      simp only [RedisEntry.live]
      simp
      omega
    rw [hdead]
    unfold Redis.setRaw
    dsimp only
    rw [hfilter]
    simp
  have hexp : (⟨⟨k, .num 1, none⟩ :: rest⟩ : Redis).expire t' k W
      = ⟨⟨k, .num 1, some (t' + W)⟩ :: rest⟩ := by
    unfold Redis.expire
    dsimp only
    rw [List.map_cons]
    have hk : ((⟨k, RVal.num 1, none⟩ : RedisEntry).key == k) = true := by simp
    rw [if_pos hk]
    rw [expire_map_untouched k t' W rest hrest]
  unfold rate_limited_check
  rw [hincr]
  dsimp only
  rw [if_pos rfl, hexp]

theorem range_map_decide_shift (c N n : ℕ) :
    (List.range (n + 1)).map (fun i => decide (c + 1 + i ≤ N))
      = decide (c + 1 ≤ N)
        :: (List.range n).map (fun i => decide (c + 1 + 1 + i ≤ N)) := by
  rw [List.range_succ_eq_map, List.map_cons, List.map_map]
  simp only [List.cons.injEq]
  constructor
  · trivial
  · apply List.map_congr_left
    intro i _
    simp only [Function.comp]
    rw [decide_eq_decide]
    omega

theorem simulate_rate_inv (N W t0 : ℕ) (k : String) (rest : List RedisEntry)
    (hrest : rest.find? (fun e => e.key == k) = none) :
    ∀ (ts : List ℕ) (c : ℕ), 1 ≤ c → (∀ t ∈ ts, t < t0 + W) →
    (simulate_rate_calls N W k ⟨⟨k, .num c, some (t0 + W)⟩ :: rest⟩ ts).1
        = (List.range ts.length).map (fun i => decide (c + 1 + i ≤ N))
    ∧ (simulate_rate_calls N W k ⟨⟨k, .num c, some (t0 + W)⟩ :: rest⟩ ts).2
        = ⟨⟨k, .num (c + ts.length), some (t0 + W)⟩ :: rest⟩ := by
  intro ts
  induction ts with
  | nil =>
    intro c hc hts
    exact ⟨rfl, rfl⟩
  | cons t ts ih =>
    intro c hc hts
    have ht : t < t0 + W := hts t (by simp)
    have hstep := rate_check_step N W t0 c t k rest hrest hc ht
    have hrec := ih (c + 1) (by omega) (fun u hu => hts u (by simp [hu]))
    constructor
    · show (rate_limited_check N W k ⟨⟨k, .num c, some (t0 + W)⟩ :: rest⟩ t).1
        :: (simulate_rate_calls N W k
          (rate_limited_check N W k ⟨⟨k, .num c, some (t0 + W)⟩ :: rest⟩ t).2 ts).1
        = _
      rw [hstep]
      dsimp only
      simp only [List.length_cons]
      rw [range_map_decide_shift c N ts.length]
      rw [hrec.1]
    · show (simulate_rate_calls N W k
          (rate_limited_check N W k ⟨⟨k, .num c, some (t0 + W)⟩ :: rest⟩ t).2 ts).2 = _
      rw [hstep]
      dsimp only
      rw [hrec.2]
      simp only [List.length_cons]
      have harith : c + 1 + ts.length = c + (ts.length + 1) := by omega
      rw [harith]

end DetSvc

theorem range_map_decide_base (N n : ℕ) :
    (List.range (n + 1)).map (fun i => decide (i + 1 ≤ N))
      = decide (1 ≤ N) :: (List.range n).map (fun i => decide (1 + 1 + i ≤ N)) := by
  rw [List.range_succ_eq_map, List.map_cons, List.map_map]
  simp only [List.cons.injEq]
  refine ⟨by trivial, ?_⟩
  apply List.map_congr_left
  intro i _
  simp only [Function.comp]
  rw [decide_eq_decide]
  omega

/-- C6: the fixed-window rate limiter with limit `N` and window `W`,
starting from a state with no counter key: a first call at `t0` followed by
further calls inside the window allows exactly the first `N` calls and
rejects each call beyond the `N`-th (the `i`-th call is allowed iff
`i + 1 ≤ N`); and any call at or after `t0 + W` finds the key expired, is
allowed, and restarts the counter at 1 — so neither allowed nor rejected
calls of the old window count toward the new one. -/
theorem rate_limiter_fixed_window (N W t0 : ℕ) (ts : List ℕ) (r : DetSvc.Redis)
    (hN : 1 ≤ N)
    (habs : r.store.find? (fun e => e.key == DetSvc.rateKey) = none)
    (hts : ∀ t ∈ ts, t < t0 + W) :
    (DetSvc.simulate_rate_calls N W DetSvc.rateKey r (t0 :: ts)).1
        = (List.range (ts.length + 1)).map (fun i => decide (i + 1 ≤ N))
    ∧ ∀ t', t0 + W ≤ t' →
      (DetSvc.rate_limited_check N W DetSvc.rateKey
          (DetSvc.simulate_rate_calls N W DetSvc.rateKey r (t0 :: ts)).2 t').1 = true
      ∧ ((DetSvc.rate_limited_check N W DetSvc.rateKey
          (DetSvc.simulate_rate_calls N W DetSvc.rateKey r (t0 :: ts)).2 t').2).store.find?
            (fun e => e.key == DetSvc.rateKey)
        = some ⟨DetSvc.rateKey, .num 1, some (t' + W)⟩ := by
  have hfirst := DetSvc.rate_check_first N W t0 DetSvc.rateKey r habs
  have hinv := DetSvc.simulate_rate_inv N W t0 DetSvc.rateKey r.store habs ts 1
    (le_refl 1) hts
  have hsim1 : DetSvc.simulate_rate_calls N W DetSvc.rateKey r (t0 :: ts)
      = (decide (1 ≤ N) :: (DetSvc.simulate_rate_calls N W DetSvc.rateKey
            ⟨⟨DetSvc.rateKey, .num 1, some (t0 + W)⟩ :: r.store⟩ ts).1,
          (DetSvc.simulate_rate_calls N W DetSvc.rateKey
            ⟨⟨DetSvc.rateKey, .num 1, some (t0 + W)⟩ :: r.store⟩ ts).2) := by
    show ((DetSvc.rate_limited_check N W DetSvc.rateKey r t0).1
        :: (DetSvc.simulate_rate_calls N W DetSvc.rateKey
              (DetSvc.rate_limited_check N W DetSvc.rateKey r t0).2 ts).1,
        (DetSvc.simulate_rate_calls N W DetSvc.rateKey
              (DetSvc.rate_limited_check N W DetSvc.rateKey r t0).2 ts).2) = _
    rw [hfirst]
  constructor
  · rw [hsim1]
    dsimp only
    rw [hinv.1, range_map_decide_base]
  · intro t' ht'
    rw [hsim1]
    dsimp only
    rw [hinv.2]
    have hroll := DetSvc.rate_check_rollover N W t0 (1 + ts.length) t'
      DetSvc.rateKey r.store habs ht'
    rw [hroll]
    constructor
    · simp [hN]
    · dsimp only
      exact List.find?_cons_of_pos _ (by simp)

/-- Witness for C6 at limit 2, window 60: calls at 0, 10, 20 give
allowed, allowed, rejected; a call at 60 is allowed and restarts the
counter at 1. -/
theorem rate_limiter_fixed_window_witness :
    ((1 ≤ 2) ∧ (DetSvc.Redis.mk []).store.find? (fun e => e.key == DetSvc.rateKey) = none
      ∧ (∀ t ∈ [10, 20], t < 0 + 60))
    ∧ ((DetSvc.simulate_rate_calls 2 60 DetSvc.rateKey ⟨[]⟩ (0 :: [10, 20])).1
        = (List.range ([10, 20].length + 1)).map (fun i => decide (i + 1 ≤ 2)))
    ∧ (DetSvc.rate_limited_check 2 60 DetSvc.rateKey
          (DetSvc.simulate_rate_calls 2 60 DetSvc.rateKey ⟨[]⟩ (0 :: [10, 20])).2 60).1 = true
    ∧ ((DetSvc.rate_limited_check 2 60 DetSvc.rateKey
          (DetSvc.simulate_rate_calls 2 60 DetSvc.rateKey ⟨[]⟩ (0 :: [10, 20])).2 60).2).store.find?
            (fun e => e.key == DetSvc.rateKey)
        = some ⟨DetSvc.rateKey, .num 1, some (60 + 60)⟩ :=
  ⟨⟨by omega, rfl, by decide⟩,
    (rate_limiter_fixed_window 2 60 0 [10, 20] ⟨[]⟩ (by omega) rfl (by decide)).1,
    ((rate_limiter_fixed_window 2 60 0 [10, 20] ⟨[]⟩ (by omega) rfl (by decide)).2
      60 (by omega)).1,
    ((rate_limiter_fixed_window 2 60 0 [10, 20] ⟨[]⟩ (by omega) rfl (by decide)).2
      60 (by omega)).2⟩

/-- C1 counterexample: the claim "rate-limit check first, then
circuit-breaker, then cache lookup" is false.  In a state whose decorator
cache holds a result for the call's key while the rate-limit counter is
already exhausted (2000 > 1000), the call returns the cached result with
only the decorator cache lookup performed — the rate-limit check never
runs, although a call that did perform it would reject, as the third
conjunct shows. -/
theorem detect_species_cache_before_rate_limit :
    (DetSvc.detect_species "h" "f" Fix.classifyLow
        ⟨Fix.redisHitExhausted, Fix.breakerClosed⟩ 0).1 = DetSvc.Outcome.ok Fix.r0
    ∧ (DetSvc.detect_species "h" "f" Fix.classifyLow
        ⟨Fix.redisHitExhausted, Fix.breakerClosed⟩ 0).2.2 = [DetSvc.Ev.decoGet]
    ∧ (DetSvc.rate_limited_check DetSvc.RATE_LIMIT 60 DetSvc.rateKey
        Fix.redisHitExhausted 0).1 = false := by
  refine ⟨?_, ?_, ?_⟩ <;> rfl

/-- C1 (amended): the order of checks a `detect_species` call actually
performs.  The `cached` decorator lookup always comes first; on a miss the
rate-limit check follows, then the circuit-breaker availability check, then
the in-body fingerprint cache lookup, and the classifier runs only after
all four checks.  The trace is always one of the five prefixes; a trace
stopping at the decorator lookup or at the fingerprint lookup means a cache
hit was returned immediately (the classifier is not invoked), and traces
stopping at the rate-limit or breaker check are the 429 / 503 rejections. -/
theorem detect_species_check_order (hashArgs fingerprint : String)
    (classify : Except String (String × ℚ)) (s : DetSvc.SvcState) (now : ℕ) :
    ((DetSvc.detect_species hashArgs fingerprint classify s now).2.2
        = [DetSvc.Ev.decoGet]
      ∨ (DetSvc.detect_species hashArgs fingerprint classify s now).2.2
        = [DetSvc.Ev.decoGet, DetSvc.Ev.rateCheck]
      ∨ (DetSvc.detect_species hashArgs fingerprint classify s now).2.2
        = [DetSvc.Ev.decoGet, DetSvc.Ev.rateCheck, DetSvc.Ev.cbCheck]
      ∨ (DetSvc.detect_species hashArgs fingerprint classify s now).2.2
        = [DetSvc.Ev.decoGet, DetSvc.Ev.rateCheck, DetSvc.Ev.cbCheck, DetSvc.Ev.fpGet]
      ∨ (DetSvc.detect_species hashArgs fingerprint classify s now).2.2
        = [DetSvc.Ev.decoGet, DetSvc.Ev.rateCheck, DetSvc.Ev.cbCheck,
            DetSvc.Ev.fpGet, DetSvc.Ev.classify])
    ∧ ((DetSvc.detect_species hashArgs fingerprint classify s now).2.2
        = [DetSvc.Ev.decoGet]
      → ∃ r, (DetSvc.detect_species hashArgs fingerprint classify s now).1
        = DetSvc.Outcome.ok r)
    ∧ ((DetSvc.detect_species hashArgs fingerprint classify s now).2.2
        = [DetSvc.Ev.decoGet, DetSvc.Ev.rateCheck]
      → (DetSvc.detect_species hashArgs fingerprint classify s now).1
        = DetSvc.Outcome.rateLimited)
    ∧ ((DetSvc.detect_species hashArgs fingerprint classify s now).2.2
        = [DetSvc.Ev.decoGet, DetSvc.Ev.rateCheck, DetSvc.Ev.cbCheck]
      → (DetSvc.detect_species hashArgs fingerprint classify s now).1
        = DetSvc.Outcome.unavailable)
    ∧ ((DetSvc.detect_species hashArgs fingerprint classify s now).2.2
        = [DetSvc.Ev.decoGet, DetSvc.Ev.rateCheck, DetSvc.Ev.cbCheck, DetSvc.Ev.fpGet]
      → ∃ r, (DetSvc.detect_species hashArgs fingerprint classify s now).1
        = DetSvc.Outcome.ok r) := by
  simp only [DetSvc.detect_species]
  split
  · exact ⟨Or.inl rfl, fun h => ⟨_, rfl⟩, fun h => by simp at h,
      fun h => by simp at h, fun h => by simp at h⟩
  · split
    · exact ⟨Or.inr (Or.inl rfl), fun h => by simp at h, fun h => rfl,
        fun h => by simp at h, fun h => by simp at h⟩
    · split
      · exact ⟨Or.inr (Or.inr (Or.inl rfl)), fun h => by simp at h,
          fun h => by simp at h, fun h => rfl, fun h => by simp at h⟩
      · split
        · exact ⟨Or.inr (Or.inr (Or.inr (Or.inl rfl))), fun h => by simp at h,
            fun h => by simp at h, fun h => by simp at h, fun h => ⟨_, rfl⟩⟩
        · split
          · exact ⟨Or.inr (Or.inr (Or.inr (Or.inr rfl))), fun h => by simp at h,
              fun h => by simp at h, fun h => by simp at h, fun h => by simp at h⟩
          · exact ⟨Or.inr (Or.inr (Or.inr (Or.inr rfl))), fun h => by simp at h,
              fun h => by simp at h, fun h => by simp at h, fun h => by simp at h⟩

/-- C4 counterexample: while the breaker is OPEN and the recovery timeout
has not elapsed (call at time 10, last failure at 0, timeout 30), a
`detect_species` call whose decorator cache holds a result is NOT rejected
with ServiceUnavailable: it returns the cached result, with only the cache
lookup performed. -/
theorem detect_species_open_breaker_cache_hit :
    Fix.breakerOpen.mode = DetSvc.CBMode.isOpen
    ∧ (10 : ℕ) < Fix.breakerOpen.lastFailure + Fix.breakerOpen.recoveryTimeout
    ∧ (DetSvc.detect_species "h" "f" Fix.classifyLow
        ⟨Fix.redisHit, Fix.breakerOpen⟩ 10).1 = DetSvc.Outcome.ok Fix.r0
    ∧ (DetSvc.detect_species "h" "f" Fix.classifyLow
        ⟨Fix.redisHit, Fix.breakerOpen⟩ 10).2.2 = [DetSvc.Ev.decoGet] := by
  refine ⟨rfl, by decide, ?_, ?_⟩ <;> rfl

/-- C4 (amended): while the circuit breaker is OPEN and the recovery
timeout has not elapsed, the classifier (the compute core) is never
invoked by a `detect_species` call; and any such call that actually
reaches the breaker check — i.e. misses the decorator cache and passes the
rate limit — is rejected with ServiceUnavailable. -/
theorem open_breaker_blocks_classifier (hashArgs fingerprint : String)
    (classify : Except String (String × ℚ)) (s : DetSvc.SvcState) (now : ℕ)
    (hopen : s.breaker.mode = DetSvc.CBMode.isOpen)
    (helapsed : now < s.breaker.lastFailure + s.breaker.recoveryTimeout) :
    (DetSvc.Ev.classify ∉ (DetSvc.detect_species hashArgs fingerprint classify s now).2.2)
    ∧ (DetSvc.isResHit (s.redis.get now (DetSvc.decoKey hashArgs)) = false →
      (DetSvc.rate_limited_check DetSvc.RATE_LIMIT 60 DetSvc.rateKey s.redis now).1 = true →
      (DetSvc.detect_species hashArgs fingerprint classify s now).1
        = DetSvc.Outcome.unavailable) := by
  have hav : s.breaker.is_available now = (false, s.breaker) := by
    unfold DetSvc.CircuitBreaker.is_available
    rw [hopen]
    dsimp only
    rw [if_neg (by omega)]
  constructor
  · simp only [DetSvc.detect_species]
    split
    · simp
    · split
      · simp
      · split
        · simp
        · next h =>
          exact absurd (by rw [hav]) h
  · intro hmiss hrate
    simp only [DetSvc.detect_species]
    split
    · next r heq =>
      rw [heq] at hmiss
      simp [DetSvc.isResHit] at hmiss
    · rw [if_neg (by simp [hrate]), if_pos (by rw [hav])]

/-- Witness for C4 (amended) with an open breaker (last failure 0,
recovery timeout 30), a call at time 10 on an empty cache. -/
theorem open_breaker_blocks_classifier_witness :
    (Fix.breakerOpen.mode = DetSvc.CBMode.isOpen
      ∧ (10 : ℕ) < Fix.breakerOpen.lastFailure + Fix.breakerOpen.recoveryTimeout
      ∧ DetSvc.isResHit ((Fix.redisEmpty).get 10 (DetSvc.decoKey "h")) = false
      ∧ (DetSvc.rate_limited_check DetSvc.RATE_LIMIT 60 DetSvc.rateKey
          Fix.redisEmpty 10).1 = true)
    ∧ (DetSvc.Ev.classify ∉ (DetSvc.detect_species "h" "f" Fix.classifyLow
        ⟨Fix.redisEmpty, Fix.breakerOpen⟩ 10).2.2)
    ∧ (DetSvc.detect_species "h" "f" Fix.classifyLow
        ⟨Fix.redisEmpty, Fix.breakerOpen⟩ 10).1 = DetSvc.Outcome.unavailable :=
  ⟨⟨rfl, by decide, rfl, rfl⟩,
    (open_breaker_blocks_classifier "h" "f" Fix.classifyLow
      ⟨Fix.redisEmpty, Fix.breakerOpen⟩ 10 rfl (by decide)).1,
    (open_breaker_blocks_classifier "h" "f" Fix.classifyLow
      ⟨Fix.redisEmpty, Fix.breakerOpen⟩ 10 rfl (by decide)).2 rfl rfl⟩

/-- C5 counterexample: a result below the confidence threshold IS written
to the result cache.  With empty caches, a closed breaker, and a classifier
returning confidence 1/2 < 0.85, the completed call leaves the
low-confidence result stored under the `cached` decorator's key. -/
theorem low_confidence_result_cached :
    (1 : ℚ) / 2 < DetSvc.DEFAULT_CONFIDENCE_THRESHOLD
    ∧ ((DetSvc.detect_species "h" "f" Fix.classifyLow
        ⟨Fix.redisEmpty, Fix.breakerClosed⟩ 0).2.1).redis.get 0 (DetSvc.decoKey "h")
      = some (.res ⟨"maybe-fox", 1 / 2⟩) := by
  constructor
  · norm_num [DetSvc.DEFAULT_CONFIDENCE_THRESHOLD]
  · norm_num [DetSvc.detect_species, Fix.redisEmpty, Fix.breakerClosed,
      Fix.classifyLow, DetSvc.Redis.get, DetSvc.Redis.lookup,
      DetSvc.rate_limited_check, DetSvc.Redis.incr, DetSvc.Redis.expire,
      DetSvc.Redis.setex, DetSvc.Redis.setRaw,
      DetSvc.CircuitBreaker.is_available, DetSvc.CircuitBreaker.record_success,
      DetSvc.decoKey, DetSvc.fpKey, DetSvc.rateKey, DetSvc.RedisEntry.live,
      List.find?, List.filter, DetSvc.DEFAULT_CONFIDENCE_THRESHOLD,
      DetSvc.CACHE_TTL, DetSvc.RATE_LIMIT]

/-- C5 (amended): only the in-body fingerprint cache enforces the
confidence threshold; the `cached` decorator stores every successfully
returned result.  For a call that reaches classification (decorator-cache
miss, rate limit passed, breaker available, fingerprint-cache miss) and
classifies with confidence `conf`: the fingerprint key receives the result
iff `conf` meets the threshold, while the decorator key receives it
unconditionally — in particular a below-threshold result is cached under
the decorator key. -/
theorem threshold_cache_policy (hashArgs fingerprint name : String) (conf : ℚ)
    (classify : Except String (String × ℚ)) (s : DetSvc.SvcState) (now : ℕ)
    (hcls : classify = .ok (name, conf))
    (hmiss : DetSvc.isResHit (s.redis.get now (DetSvc.decoKey hashArgs)) = false)
    (hrate : (DetSvc.rate_limited_check DetSvc.RATE_LIMIT 60 DetSvc.rateKey
      s.redis now).1 = true)
    (havail : (s.breaker.is_available now).1 = true)
    (hfp : DetSvc.isResHit ((DetSvc.rate_limited_check DetSvc.RATE_LIMIT 60
      DetSvc.rateKey s.redis now).2.get now (DetSvc.fpKey fingerprint)) = false)
    (hkk : DetSvc.fpKey fingerprint ≠ DetSvc.decoKey hashArgs) :
    ((DetSvc.detect_species hashArgs fingerprint classify s now).2.1).redis.get now
        (DetSvc.decoKey hashArgs) = some (.res ⟨name, conf⟩)
    ∧ (conf < DetSvc.DEFAULT_CONFIDENCE_THRESHOLD →
      DetSvc.isResHit (((DetSvc.detect_species hashArgs fingerprint classify
        s now).2.1).redis.get now (DetSvc.fpKey fingerprint)) = false)
    ∧ (DetSvc.DEFAULT_CONFIDENCE_THRESHOLD ≤ conf →
      ((DetSvc.detect_species hashArgs fingerprint classify s now).2.1).redis.get now
        (DetSvc.fpKey fingerprint) = some (.res ⟨name, conf⟩)) := by
  have hred : DetSvc.detect_species hashArgs fingerprint classify s now
      = (.ok ⟨name, conf⟩,
        ⟨(if DetSvc.DEFAULT_CONFIDENCE_THRESHOLD ≤ conf then
            (DetSvc.rate_limited_check DetSvc.RATE_LIMIT 60 DetSvc.rateKey
              s.redis now).2.setex now (DetSvc.fpKey fingerprint)
              DetSvc.CACHE_TTL (.res ⟨name, conf⟩)
          else (DetSvc.rate_limited_check DetSvc.RATE_LIMIT 60 DetSvc.rateKey
            s.redis now).2).setex now (DetSvc.decoKey hashArgs) DetSvc.CACHE_TTL
            (.res ⟨name, conf⟩),
          (s.breaker.is_available now).2.record_success⟩,
        [DetSvc.Ev.decoGet, DetSvc.Ev.rateCheck, DetSvc.Ev.cbCheck,
          DetSvc.Ev.fpGet, DetSvc.Ev.classify]) := by
    simp only [DetSvc.detect_species]
    split
    · next r heq =>
      rw [heq] at hmiss
      simp [DetSvc.isResHit] at hmiss
    · rw [if_neg (by simp [hrate]), if_neg (by simp [havail])]
      split
      · next r heq =>
        rw [heq] at hfp
        simp [DetSvc.isResHit] at hfp
      · rw [hcls]
  rw [hred]
  dsimp only
  refine ⟨?_, ?_, ?_⟩
  · exact DetSvc.get_setex_self _ now _ DetSvc.CACHE_TTL _ (by decide)
  · intro hlt
    rw [DetSvc.get_setex_ne _ now now _ _ _ _ hkk]
    rw [if_neg (not_le.mpr hlt)]
    exact hfp
  · intro hge
    rw [DetSvc.get_setex_ne _ now now _ _ _ _ hkk, if_pos hge]
    exact DetSvc.get_setex_self _ now _ _ _ (by decide)

/-- Witness for C5 (amended) at the low-confidence run of the
counterexample state: the fingerprint key stays result-free while the
decorator key receives the below-threshold result. -/
theorem threshold_cache_policy_witness :
    (Fix.classifyLow = .ok ("maybe-fox", (1 : ℚ) / 2)
      ∧ DetSvc.isResHit (Fix.redisEmpty.get 0 (DetSvc.decoKey "h")) = false
      ∧ (DetSvc.rate_limited_check DetSvc.RATE_LIMIT 60 DetSvc.rateKey
          Fix.redisEmpty 0).1 = true
      ∧ (Fix.breakerClosed.is_available 0).1 = true
      ∧ DetSvc.fpKey "f" ≠ DetSvc.decoKey "h"
      ∧ (1 : ℚ) / 2 < DetSvc.DEFAULT_CONFIDENCE_THRESHOLD)
    ∧ ((DetSvc.detect_species "h" "f" Fix.classifyLow
        ⟨Fix.redisEmpty, Fix.breakerClosed⟩ 0).2.1).redis.get 0 (DetSvc.decoKey "h")
      = some (.res ⟨"maybe-fox", (1 : ℚ) / 2⟩)
    ∧ DetSvc.isResHit (((DetSvc.detect_species "h" "f" Fix.classifyLow
        ⟨Fix.redisEmpty, Fix.breakerClosed⟩ 0).2.1).redis.get 0
        (DetSvc.fpKey "f")) = false :=
  ⟨⟨rfl, rfl, rfl, rfl, by decide, by norm_num [DetSvc.DEFAULT_CONFIDENCE_THRESHOLD]⟩,
    (threshold_cache_policy "h" "f" "maybe-fox" ((1 : ℚ) / 2) Fix.classifyLow
      ⟨Fix.redisEmpty, Fix.breakerClosed⟩ 0 rfl rfl rfl rfl rfl (by decide)).1,
    ((threshold_cache_policy "h" "f" "maybe-fox" ((1 : ℚ) / 2) Fix.classifyLow
      ⟨Fix.redisEmpty, Fix.breakerClosed⟩ 0 rfl rfl rfl rfl rfl (by decide)).2).1
      (by norm_num [DetSvc.DEFAULT_CONFIDENCE_THRESHOLD])⟩


namespace ModelSvc

theorem chunksAux_flatten {α : Type} :
    ∀ (fuel bs : ℕ) (l : List α), l.length ≤ fuel → 0 < bs →
      (chunksAux fuel bs l).flatten = l := by
  intro fuel
  induction fuel with
  | zero =>
    intro bs l hl _
    have : l = [] := List.eq_nil_of_length_eq_zero (by omega)
    subst this
    rfl
  | succ fuel ih =>
    intro bs l hl hbs
    cases l with
    | nil => rfl
    | cons x xs =>
      show ((x :: xs).take bs ++ (chunksAux fuel bs ((x :: xs).drop bs)).flatten) = x :: xs
      have hl' : xs.length + 1 ≤ fuel + 1 := by simpa using hl
      have hdrop : ((x :: xs).drop bs).length ≤ fuel := by
        simp only [List.length_drop, List.length_cons]
        omega
      rw [ih bs ((x :: xs).drop bs) hdrop hbs]
      exact List.take_append_drop bs (x :: xs)

theorem chunks_flatten {α : Type} (bs : ℕ) (l : List α) (hbs : 0 < bs) :
    (chunks bs l).flatten = l :=
  chunksAux_flatten l.length bs l (le_refl _) hbs

theorem chunksAux_sizes {α : Type} :
    ∀ (fuel bs : ℕ) (l : List α) (b : List α), b ∈ chunksAux fuel bs l →
      b.length ≤ bs := by
  intro fuel
  induction fuel with
  | zero =>
    intro bs l b hb
    simp [chunksAux] at hb
  | succ fuel ih =>
    intro bs l b hb
    cases l with
    | nil => simp [chunksAux] at hb
    | cons x xs =>
      rcases List.mem_cons.mp hb with hb | hb
      · subst hb
        simp [List.length_take]
      · exact ih bs _ b hb

theorem chunks_sizes {α : Type} (bs : ℕ) (l : List α) (b : List α)
    (hb : b ∈ chunks bs l) : b.length ≤ bs :=
  chunksAux_sizes l.length bs l b hb

theorem extractOks_append {α E R : Type} (f : α → Except E R) (l1 l2 : List α) :
    extractOks f (l1 ++ l2) = extractOks f l1 ++ extractOks f l2 := by
  simp [extractOks, List.filterMap_append]

theorem extractOks_eq_map {α E R : Type} [Inhabited R] (f : α → Except E R)
    (l : List α) (hok : ∀ x ∈ l, ∃ r, f x = .ok r) :
    extractOks f l = l.map (fun x => ((f x).toOption).getD default) := by
  induction l with
  | nil => rfl
  | cons a t ih =>
    obtain ⟨r, hr⟩ := hok a (by simp)
    have ht := ih (fun x hx => hok x (by simp [hx]))
    show List.filterMap (fun x => (f x).toOption) (a :: t) = _
    rw [List.filterMap_cons, hr]
    show r :: List.filterMap (fun x => (f x).toOption) t = _
    rw [show List.filterMap (fun x => (f x).toOption) t = extractOks f t from rfl, ht]
    simp only [List.map_cons]
    rw [hr]
    rfl

theorem collectOks_all_ok {α E R : Type} (f : α → Except E R) (b : List α)
    (hok : ∀ x ∈ b, ∃ r, f x = .ok r) :
    collectOks f b = some (extractOks f b) := by
  induction b with
  | nil => rfl
  | cons a t ih =>
    obtain ⟨r, hr⟩ := hok a (by simp)
    have ht := ih (fun x hx => hok x (by simp [hx]))
    show (match (f a).toOption with
      | none => none
      | some r =>
        match collectOks f t with
        | none => none
        | some rs => some (r :: rs)) = _
    rw [hr, ht]
    simp only [Except.toOption]
    show some (r :: extractOks f t) = some (extractOks f (a :: t))
    show _ = some (List.filterMap (fun x => (f x).toOption) (a :: t))
    rw [List.filterMap_cons, hr]
    rfl

theorem collectOks_none {α E R : Type} (f : α → Except E R) :
    ∀ (b : List α), collectOks f b = none →
      ∃ x ∈ b, ∃ e, f x = .error e := by
  intro b
  induction b with
  | nil => intro h; exact absurd h (by simp [collectOks])
  | cons a t ih =>
    intro h
    cases hfa : f a with
    | error e => exact ⟨a, by simp, e, hfa⟩
    | ok r =>
      have h' : collectOks f t = none := by
        by_contra hne
        cases hm : collectOks f t with
        | none => exact hne hm
        | some rs =>
          rw [show collectOks f (a :: t)
              = (match (f a).toOption with
                | none => none
                | some r =>
                  match collectOks f t with
                  | none => none
                  | some rs => some (r :: rs)) from rfl, hfa, hm] at h
          simp only [Except.toOption] at h
          exact Option.noConfusion h
      obtain ⟨x, hx, e, he⟩ := ih h'
      exact ⟨x, by simp [hx], e, he⟩

theorem mem_ord_of_covers {α : Type} (b : List α) (ord : List ℕ) (i : ℕ)
    (hcov : covers b ord = true) (hi : i < b.length) : i ∈ ord := by
  unfold covers at hcov
  have := List.all_eq_true.mp hcov i (List.mem_range.mpr hi)
  simpa [List.contains, List.elem_iff] using this

theorem gather_ok {α E R : Type} (f : α → Except E R) (b : List α)
    (ord : List ℕ) (hcov : covers b ord = true)
    (hok : ∀ x ∈ b, ∃ r, f x = .ok r) :
    gatherSched f b ord = .ok (extractOks f b) := by
  unfold gatherSched
  have hfs : ord.findSome? (taskError f b) = none := by
    rw [List.findSome?_eq_none_iff]
    intro i _
    unfold taskError
    cases hg : b.get? i with
    | none => rfl
    | some a =>
      obtain ⟨r, hr⟩ := hok a (List.get?_mem hg)
      show (match f a with
        | Except.error e => some e
        | Except.ok _ => none) = none
      rw [hr]
  rw [hfs, if_pos hcov, collectOks_all_ok f b hok]

theorem gather_item_of_fail {α E R : Type} (f : α → Except E R) (b : List α)
    (ord : List ℕ) (x : α) (e : E) (hcov : covers b ord = true)
    (hx : x ∈ b) (hf : f x = .error e) :
    ∃ e', gatherSched f b ord = .error (.item e') := by
  unfold gatherSched
  cases hfs : ord.findSome? (taskError f b) with
  | some e' => exact ⟨e', rfl⟩
  | none =>
    exfalso
    obtain ⟨i, hi⟩ := List.mem_iff_get?.mp hx
    have hilt : i < b.length := by
      obtain ⟨h, _⟩ := List.get?_eq_some.mp hi
      exact h
    have hio : i ∈ ord := mem_ord_of_covers b ord i hcov hilt
    have hnone := List.findSome?_eq_none_iff.mp hfs i hio
    unfold taskError at hnone
    rw [hi] at hnone
    dsimp only at hnone
    rw [hf] at hnone
    simp at hnone

theorem gather_ne_pending {α E R : Type} (f : α → Except E R) (b : List α)
    (ord : List ℕ) (hcov : covers b ord = true) :
    gatherSched f b ord ≠ .error .pending := by
  by_cases hok : ∀ x ∈ b, ∃ r, f x = .ok r
  · rw [gather_ok f b ord hcov hok]
    simp
  · push_neg at hok
    obtain ⟨x, hx, hfail⟩ := hok
    have hex : ∃ e, f x = .error e := by
      cases hfx : f x with
      | error e => exact ⟨e, rfl⟩
      | ok r => exact absurd hfx (hfail r)
    obtain ⟨e, he⟩ := hex
    obtain ⟨e', he'⟩ := gather_item_of_fail f b ord x e hcov hx he
    rw [he']
    simp

end ModelSvc

namespace ModelSvc

theorem gather_error_shape {α E R : Type} (f : α → Except E R) (b : List α)
    (ord : List ℕ) (ε : BPErr E) (h : gatherSched f b ord = .error ε) :
    (∃ e, ε = BPErr.item e) ∨ ε = BPErr.pending := by
  unfold gatherSched at h
  cases hfs : ord.findSome? (taskError f b) with
  | some e =>
    rw [hfs] at h
    exact Or.inl ⟨e, by injection h with h2; exact h2.symm⟩
  | none =>
    rw [hfs] at h
    by_cases hcv : covers b ord = true
    · rw [if_pos hcv] at h
      cases hm : collectOks f b with
      | some rs =>
        rw [hm] at h
        exact absurd h (by simp)
      | none =>
        rw [hm] at h
        exact Or.inr (by injection h with h2; exact h2.symm)
    · rw [if_neg hcv] at h
      exact Or.inr (by injection h with h2; exact h2.symm)

theorem process_batches_ok {α E : Type} (f : α → Except E DetSvc.DetResult)
    (detection_type : String)
    (hdt : detection_type = "species" ∨ detection_type = "fossil") :
    ∀ (batches : List (List α)) (scheds : List (List ℕ)),
      coversAll batches scheds = true →
      (∀ x ∈ batches.flatten, ∃ r, f x = .ok r) →
      process_batches f detection_type batches scheds
        = .ok (extractOks f batches.flatten) := by
  intro batches
  induction batches with
  | nil =>
    intro scheds _ _
    rfl
  | cons b rest ih =>
    intro scheds hcov hok
    have hc : covers b (scheds.headD (List.range b.length)) = true
        ∧ coversAll rest scheds.tail = true := by
      simpa [coversAll] using hcov
    unfold process_batches
    rw [if_pos hdt]
    rw [gather_ok f b _ hc.1 (fun x hx => hok x (by simp [hx]))]
    rw [ih scheds.tail hc.2 (fun x hx => hok x (by simp [hx]))]
    show Except.ok (extractOks f b ++ extractOks f rest.flatten)
      = Except.ok (extractOks f ((b :: rest).flatten))
    rw [List.flatten_cons, extractOks_append]

theorem process_batches_item_error {α E : Type} (f : α → Except E DetSvc.DetResult)
    (detection_type : String)
    (hdt : detection_type = "species" ∨ detection_type = "fossil") :
    ∀ (batches : List (List α)) (scheds : List (List ℕ)),
      coversAll batches scheds = true →
      (∃ x ∈ batches.flatten, ∃ e, f x = .error e) →
      ∃ e', process_batches f detection_type batches scheds
        = .error (.item e') := by
  intro batches
  induction batches with
  | nil =>
    intro scheds _ hfail
    obtain ⟨x, hx, _⟩ := hfail
    simp at hx
  | cons b rest ih =>
    intro scheds hcov hfail
    have hc : covers b (scheds.headD (List.range b.length)) = true
        ∧ coversAll rest scheds.tail = true := by
      simpa [coversAll] using hcov
    obtain ⟨x, hx, e, he⟩ := hfail
    rw [List.flatten_cons] at hx
    unfold process_batches
    rw [if_pos hdt]
    rcases List.mem_append.mp hx with hxb | hxr
    · obtain ⟨e', he'⟩ := gather_item_of_fail f b _ x e hc.1 hxb he
      rw [he']
      exact ⟨e', rfl⟩
    · cases hg : gatherSched f b (scheds.headD (List.range b.length)) with
      | error ε =>
        rcases gather_error_shape f b _ ε hg with ⟨e2, rfl⟩ | rfl
        · exact ⟨e2, rfl⟩
        · exact absurd hg (gather_ne_pending f b _ hc.1)
      | ok rs =>
        obtain ⟨e', he'⟩ := ih scheds.tail hc.2 ⟨x, hxr, e, he⟩
        rw [he']
        exact ⟨e', rfl⟩

end ModelSvc

/-- C9 counterexample: a per-item failure aborts the whole batch.  With
batch [0, 1], a per-item call failing on 0 and succeeding on 1, and the
in-order completion schedule, `batch_process` returns the propagated item
error — no ordered result list with a per-item error entry exists, and the
successful item 1 is not reported either. -/
theorem batch_item_failure_aborts :
    ModelSvc.batch_process 32 128 (85 / 100 : ℚ) Fix.fBoom "species"
        [[0, 1]] [0, 1] = .error (.item "boom")
    ∧ Fix.fBoom 1 = .ok ⟨"cat", 9 / 10⟩ :=
  ⟨rfl, rfl⟩

/-- C9 (amended): a failure while processing a single item aborts the whole
batch: whenever any input item's call fails (the batch being within the cap,
the detection type valid, and every sub-batch's completion order covering),
`batch_process` returns a propagated per-item error instead of a result
list; no per-item error entries are produced. -/
theorem batch_item_failure_aborts_batch {α E : Type} (batch_size max_batch : ℕ)
    (τ : ℚ) (f : α → Except E DetSvc.DetResult) (detection_type : String)
    (scheds : List (List ℕ)) (inputs : List α) (x : α) (e : E)
    (hbs : 0 < batch_size) (hlen : inputs.length ≤ max_batch)
    (hdt : detection_type = "species" ∨ detection_type = "fossil")
    (hcov : ModelSvc.coversAll (ModelSvc.chunks batch_size inputs) scheds = true)
    (hx : x ∈ inputs) (he : f x = .error e) :
    ∃ e', ModelSvc.batch_process batch_size max_batch τ f detection_type scheds inputs
      = .error (.item e') := by
  have hxf : x ∈ (ModelSvc.chunks batch_size inputs).flatten := by
    rw [ModelSvc.chunks_flatten _ _ hbs]
    exact hx
  obtain ⟨e', he'⟩ := ModelSvc.process_batches_item_error f _ hdt
    (ModelSvc.chunks batch_size inputs) scheds hcov ⟨x, hxf, e, he⟩
  refine ⟨e', ?_⟩
  unfold ModelSvc.batch_process
  rw [if_neg (by omega), he']

/-- Witness for C9 (amended): the failing item 0 of batch [0, 1] yields a
propagated item error. -/
theorem batch_item_failure_aborts_batch_witness :
    ((0 : ℕ) < 32 ∧ [0, 1].length ≤ 128
      ∧ ("species" = "species" ∨ "species" = "fossil")
      ∧ ModelSvc.coversAll (ModelSvc.chunks 32 [0, 1]) [[0, 1]] = true
      ∧ (0 : ℕ) ∈ [0, 1] ∧ Fix.fBoom 0 = .error "boom")
    ∧ ∃ e', ModelSvc.batch_process 32 128 (85 / 100 : ℚ) Fix.fBoom "species"
        [[0, 1]] [0, 1] = .error (.item e') :=
  ⟨⟨by omega, by simp, Or.inl rfl, rfl, by simp, rfl⟩,
    batch_item_failure_aborts_batch 32 128 (85 / 100 : ℚ) Fix.fBoom "species"
      [[0, 1]] [0, 1] 0 "boom" (by omega) (by simp) (Or.inl rfl) rfl
      (by simp) rfl⟩

/-- C8 counterexample: a batch whose size is within the cap need not
produce one result per item — the empty batch (size 0 ≤ cap) produces no
result list at all, failing with the success-rate division by zero. -/
theorem batch_process_empty_not_result_list :
    ModelSvc.batch_process 32 128 (85 / 100 : ℚ) Fix.fIdx "species" []
      ([] : List ℕ) = .error .zeroDiv :=
  rfl

/-- C8 (amended): for every nonempty batch within the cap whose items all
process successfully, `batch_process` partitions the items into sub-batches
of size at most the configured batch size and returns exactly one result
per input item, in the original input order (the i-th result is the value
of the per-item call on the i-th input), together with the batch
success-rate — and the returned value is the same for every covering
completion schedule, i.e. independent of the completion order of the
concurrently dispatched sub-tasks. -/
theorem batch_process_order_preserved {α E : Type} (batch_size max_batch : ℕ)
    (τ : ℚ) (f : α → Except E DetSvc.DetResult) (detection_type : String)
    (scheds : List (List ℕ)) (inputs : List α)
    (hbs : 0 < batch_size) (hlen : inputs.length ≤ max_batch)
    (hne : inputs ≠ [])
    (hdt : detection_type = "species" ∨ detection_type = "fossil")
    (hok : ∀ x ∈ inputs, ∃ r, f x = .ok r)
    (hcov : ModelSvc.coversAll (ModelSvc.chunks batch_size inputs) scheds = true) :
    ModelSvc.batch_process batch_size max_batch τ f detection_type scheds inputs
      = .ok (ModelSvc.extractOks f inputs,
          (((ModelSvc.extractOks f inputs).countP
              (fun r => τ ≤ r.confidence) : ℕ) : ℚ) / (inputs.length : ℚ))
    ∧ (ModelSvc.extractOks f inputs).length = inputs.length
    ∧ (∀ i x, inputs.get? i = some x →
        ∃ r, f x = .ok r ∧ (ModelSvc.extractOks f inputs).get? i = some r)
    ∧ (∀ b ∈ ModelSvc.chunks batch_size inputs, b.length ≤ batch_size)
    ∧ (∀ scheds', ModelSvc.coversAll (ModelSvc.chunks batch_size inputs) scheds' = true →
        ModelSvc.batch_process batch_size max_batch τ f detection_type scheds' inputs
          = ModelSvc.batch_process batch_size max_batch τ f detection_type scheds inputs) := by
  have hlen0 : inputs.length ≠ 0 :=
    fun h0 => hne (List.eq_nil_of_length_eq_zero h0)
  have key : ∀ sc, ModelSvc.coversAll (ModelSvc.chunks batch_size inputs) sc = true →
      ModelSvc.batch_process batch_size max_batch τ f detection_type sc inputs
        = .ok (ModelSvc.extractOks f inputs,
            (((ModelSvc.extractOks f inputs).countP
                (fun r => τ ≤ r.confidence) : ℕ) : ℚ) / (inputs.length : ℚ)) := by
    intro sc hsc
    unfold ModelSvc.batch_process
    rw [if_neg (by omega)]
    rw [ModelSvc.process_batches_ok f _ hdt _ sc hsc
      (by rw [ModelSvc.chunks_flatten _ _ hbs]; exact hok)]
    rw [ModelSvc.chunks_flatten _ _ hbs]
    dsimp only
    rw [if_neg hlen0]
  refine ⟨key scheds hcov, ?_, ?_, ?_, ?_⟩
  · rw [ModelSvc.extractOks_eq_map f inputs hok]
    simp
  · intro i x hg
    obtain ⟨r, hr⟩ := hok x (List.get?_mem hg)
    refine ⟨r, hr, ?_⟩
    rw [ModelSvc.extractOks_eq_map f inputs hok, List.get?_map, hg]
    simp [hr, Except.toOption]
  · exact fun b hb => ModelSvc.chunks_sizes _ _ b hb
  · intro scheds' hcov'
    rw [key scheds' hcov', key scheds hcov]

/-- Witness for C8 (amended): batch [0, 1, 2] with batch size 2 splits into
sub-batches [0, 1] and [2]; with the out-of-order completion schedule
[[1, 0], [0]] the call still returns the three per-item results in input
order, and the in-order schedule [[0, 1], [0]] gives the identical value. -/
theorem batch_process_order_preserved_witness :
    ((0 : ℕ) < 2 ∧ [0, 1, 2].length ≤ 128 ∧ ([0, 1, 2] : List ℕ) ≠ []
      ∧ ("species" = "species" ∨ "species" = "fossil")
      ∧ (∀ x ∈ ([0, 1, 2] : List ℕ), ∃ r, Fix.fIdx x = .ok r)
      ∧ ModelSvc.coversAll (ModelSvc.chunks 2 [0, 1, 2]) [[1, 0], [0]] = true)
    ∧ ModelSvc.batch_process 2 128 (85 / 100 : ℚ) Fix.fIdx "species"
        [[1, 0], [0]] [0, 1, 2]
      = .ok (ModelSvc.extractOks Fix.fIdx [0, 1, 2],
          (((ModelSvc.extractOks Fix.fIdx [0, 1, 2]).countP
              (fun r => (85 / 100 : ℚ) ≤ r.confidence) : ℕ) : ℚ)
            / (([0, 1, 2] : List ℕ).length : ℚ))
    ∧ (ModelSvc.coversAll (ModelSvc.chunks 2 [0, 1, 2]) [[0, 1], [0]] = true →
        ModelSvc.batch_process 2 128 (85 / 100 : ℚ) Fix.fIdx "species"
          [[0, 1], [0]] [0, 1, 2]
        = ModelSvc.batch_process 2 128 (85 / 100 : ℚ) Fix.fIdx "species"
          [[1, 0], [0]] [0, 1, 2]) :=
  ⟨⟨by omega, by simp, by simp, Or.inl rfl, fun x _ => ⟨_, rfl⟩, rfl⟩,
    (batch_process_order_preserved 2 128 (85 / 100 : ℚ) Fix.fIdx "species"
      [[1, 0], [0]] [0, 1, 2] (by omega) (by simp) (by simp) (Or.inl rfl)
      (fun x _ => ⟨_, rfl⟩) rfl).1,
    fun h => ((batch_process_order_preserved 2 128 (85 / 100 : ℚ) Fix.fIdx "species"
      [[1, 0], [0]] [0, 1, 2] (by omega) (by simp) (by simp) (Or.inl rfl)
      (fun x _ => ⟨_, rfl⟩) rfl).2.2.2.2 [[0, 1], [0]] h)⟩
